import Mathlib

/-!
Verification of the build-lifecycle polling core of the
GSA/grace-circleci-builder repository, translated from the Go source
(`circleci/circleci.go`, `circleci/helpers.go`, `circleci/types.go`,
`runner.go`) into a shallow Lean embedding.

Timestamps (`time.Time`) are modelled as `Int` (nanoseconds since an
arbitrary epoch); durations combine with them by ordinary integer
arithmetic, exactly as Go's `Time.Add`/`Time.Sub`/`Time.After` do.
Pointer-typed fields (`*User`, `*time.Time`, `*BuildWorkflow`, `*bool`)
are modelled as `Option`.
-/

namespace GraceCircleci

/-- `BuildWorkflow` from `circleci/types.go`: the `workflows` property of a
build or build summary. -/
structure BuildWorkflow where
  jobName : String
  jobID : String
  workflowName : String
  workflowID : String
  workspaceID : String
  upstreamJobIDs : List String
deriving Repr, DecidableEq

/-- `User` from `circleci/types.go`. -/
structure User where
  username : String
  displayName : String
deriving Repr, DecidableEq

/-- `Project` from `circleci/types.go`. -/
structure Project where
  username : String
  reponame : String
  vcs : String
  vcsURL : String
deriving Repr, DecidableEq

/-- `BuildProjectInput` (the build selector) from `circleci/types.go`. -/
structure BuildProjectInput where
  branch : String
  revision : String
  tag : String
deriving Repr, DecidableEq

/-- `BuildSummaryOutput` from `circleci/types.go`: one recent-builds list
entry.  `user`, `queuedAt`, `stoppedAt` and `workflow` are pointers in Go
and hence `Option` here. -/
structure BuildSummaryOutput where
  buildNum : Int
  username : String
  lifecycle : String
  reponame : String
  outcome : String
  status : String
  branch : String
  revision : String
  user : Option User
  queuedAt : Option Int
  stoppedAt : Option Int
  vcs : String
  vcsTag : String
  workflow : Option BuildWorkflow
deriving Repr, DecidableEq

/-- `Build` from `circleci/types.go`: the single-build view, which adds the
explicit `Failed *bool` flag. -/
structure Build where
  buildNum : Int
  username : String
  lifecycle : String
  reponame : String
  outcome : String
  status : String
  branch : String
  revision : String
  vcs : String
  failed : Option Bool
  user : Option User
  queuedAt : Option Int
  stoppedAt : Option Int
  workflow : Option BuildWorkflow
deriving Repr, DecidableEq

/-- `(*BuildProjectInput).matchSummary` from `circleci/types.go`: each
non-empty selector field must equal the corresponding summary field. -/
def matchSummary (bpi : BuildProjectInput) (summary : BuildSummaryOutput) : Bool :=
  if bpi.tag.length > 0 ∧ summary.vcsTag ≠ bpi.tag then false
  else if bpi.revision.length > 0 ∧ summary.revision ≠ bpi.revision then false
  else if bpi.branch.length > 0 ∧ summary.branch ≠ bpi.branch then false
  else true

theorem string_length_pos_iff (s : String) : 0 < s.length ↔ s ≠ "" := by
  constructor
  · intro h hs
    subst hs
    simp at h
  · intro h
    rcases Nat.eq_zero_or_pos s.length with hz | hp
    · exact absurd (by cases s with
        | mk data =>
          cases data with
          | nil => rfl
          | cons c cs => simp [String.length] at hz) h
    · exact hp

/-- C5: `matchSummary` returns `true` iff every non-empty field of the
selector (tag, revision, branch) equals the corresponding summary field;
a selector with all three fields empty matches every summary. -/
theorem matchSummary_iff_nonempty_fields_eq (bpi : BuildProjectInput)
    (summary : BuildSummaryOutput) :
    (matchSummary bpi summary = true ↔
      ((bpi.tag ≠ "" → summary.vcsTag = bpi.tag) ∧
       (bpi.revision ≠ "" → summary.revision = bpi.revision) ∧
       (bpi.branch ≠ "" → summary.branch = bpi.branch))) ∧
    (bpi.tag = "" → bpi.revision = "" → bpi.branch = "" →
      matchSummary bpi summary = true) := by
  constructor
  · unfold matchSummary
    split
    · rename_i h
      simp only [Bool.false_eq_true, false_iff]
      intro ⟨ht, _, _⟩
      exact h.2 (ht ((string_length_pos_iff bpi.tag).mp h.1))
    · rename_i hTag
      split
      · rename_i h
        simp only [Bool.false_eq_true, false_iff]
        intro ⟨_, hr, _⟩
        exact h.2 (hr ((string_length_pos_iff bpi.revision).mp h.1))
      · rename_i hRev
        split
        · rename_i h
          simp only [Bool.false_eq_true, false_iff]
          intro ⟨_, _, hb⟩
          exact h.2 (hb ((string_length_pos_iff bpi.branch).mp h.1))
        · rename_i hBranch
          simp only [true_iff]
          refine ⟨fun ht => ?_, fun hr => ?_, fun hb => ?_⟩
          · by_contra hne
            exact hTag ⟨(string_length_pos_iff bpi.tag).mpr ht, hne⟩
          · by_contra hne
            exact hRev ⟨(string_length_pos_iff bpi.revision).mpr hr, hne⟩
          · by_contra hne
            exact hBranch ⟨(string_length_pos_iff bpi.branch).mpr hb, hne⟩
  · intro ht hr hb
    unfold matchSummary
    simp [ht, hr, hb]

/-- C5 witness: the theorem instantiated at a concrete selector and
summary. -/
theorem matchSummary_iff_nonempty_fields_eq_witness :
    matchSummary ⟨"master", "", ""⟩
      ⟨1, "u", "finished", "repo", "success", "success", "master", "r",
       none, none, none, "github", "", none⟩ = true :=
  (matchSummary_iff_nonempty_fields_eq ⟨"master", "", ""⟩
      ⟨1, "u", "finished", "repo", "success", "success", "master", "r",
       none, none, none, "github", "", none⟩).1.mpr
    ⟨fun h => absurd rfl h, fun h => absurd rfl h, fun _ => rfl⟩

/-! ## Workflow Status Aggregator
`FilterBuildSummariesByWorkflowStatus` from `circleci/helpers.go`.  The Go
`map[string]string` keyed by workflow id is modelled as an association list
with Go map assignment semantics (`wfSet`): replace when the key is present,
append when it is absent.  The Go range over the map is modelled as a fold
in insertion order; the set of returned summaries does not depend on this
order. -/

/-- Go map read `workflows[id]` (with the `ok` flag as `Option`). -/
def wfLookup : List (String × String) → String → Option String
  | [], _ => none
  | (k, v) :: rest, key => if k = key then some v else wfLookup rest key

/-- Go map write `workflows[id] = v`. -/
def wfSet : List (String × String) → String → String → List (String × String)
  | [], key, val => [(key, val)]
  | (k, v) :: rest, key, val =>
    if k = key then (k, val) :: rest else (k, v) :: wfSet rest key val

/-- One pass of the first loop of `FilterBuildSummariesByWorkflowStatus`:
record a first-seen status, and afterwards overwrite only with a status that
differs from the stored one and from the target `status`. -/
def collectStep (status : String) (m : List (String × String))
    (b : BuildSummaryOutput) : List (String × String) :=
  match b.workflow with
  | none => m
  | some w =>
    match wfLookup m w.workflowID with
    | none => wfSet m w.workflowID b.status
    | some currentStatus =>
      if b.status ≠ currentStatus ∧ b.status ≠ status then
        wfSet m w.workflowID b.status
      else m

/-- The workflow-id → reduced-status map built by the first loop. -/
def collectWorkflows (input : List BuildSummaryOutput) (status : String) :
    List (String × String) :=
  input.foldl (collectStep status) []

/-- Whether a summary carries the given workflow id (nil workflows carry
none). -/
def hasWorkflowID (workflowID : String) (b : BuildSummaryOutput) : Bool :=
  match b.workflow with
  | none => false
  | some w => w.workflowID = workflowID

/-- One pass of the second loop: for a map entry whose reduced status is the
target, append every input summary of that workflow id. -/
def outStep (input : List BuildSummaryOutput) (status : String)
    (output : List BuildSummaryOutput) (p : String × String) :
    List BuildSummaryOutput :=
  if p.2 ≠ status then output
  else output ++ input.filter (hasWorkflowID p.1)

/-- `FilterBuildSummariesByWorkflowStatus` from `circleci/helpers.go`. -/
def FilterBuildSummariesByWorkflowStatus (input : List BuildSummaryOutput)
    (status : String) : List BuildSummaryOutput :=
  (collectWorkflows input status).foldl (outStep input status) []

/-- The statuses of the given workflow's summaries, in input order. -/
def statusesOf (input : List BuildSummaryOutput) (workflowID : String) :
    List String :=
  (input.filter (hasWorkflowID workflowID)).map BuildSummaryOutput.status

/-- The per-workflow status reduction step of the first loop. -/
def redStep (status current new : String) : String :=
  if new ≠ current ∧ new ≠ status then new else current

/-! ### Association-list lemmas -/

theorem wfLookup_wfSet_self (m : List (String × String)) (k v : String) :
    wfLookup (wfSet m k v) k = some v := by
  induction m with
  | nil => simp [wfSet, wfLookup]
  | cons p rest ih =>
    obtain ⟨k', v'⟩ := p
    by_cases h : k' = k
    · subst h
      simp [wfSet, wfLookup]
    · simp [wfSet, wfLookup, h, ih]

theorem wfLookup_wfSet_ne (m : List (String × String)) (k v k' : String)
    (h : k' ≠ k) : wfLookup (wfSet m k v) k' = wfLookup m k' := by
  have hkk' : ¬k = k' := fun hc => h hc.symm
  induction m with
  | nil => simp [wfSet, wfLookup, hkk']
  | cons p rest ih =>
    obtain ⟨a, b⟩ := p
    by_cases ha : a = k
    · have hak' : ¬a = k' := fun hc => h (hc.symm.trans ha)
      simp [wfSet, ha, wfLookup, hak', hkk']
    · simp only [wfSet, if_neg ha, wfLookup]
      rw [ih]

theorem wfLookup_eq_none_iff (m : List (String × String)) (k : String) :
    wfLookup m k = none ↔ k ∉ m.map Prod.fst := by
  induction m with
  | nil => simp [wfLookup]
  | cons p rest ih =>
    obtain ⟨a, b⟩ := p
    by_cases ha : a = k
    · simp [wfLookup, ha]
    · simp [wfLookup, ha, Ne.symm ha, ih]

theorem mem_of_wfLookup_eq_some (m : List (String × String)) (k v : String)
    (h : wfLookup m k = some v) : (k, v) ∈ m := by
  induction m with
  | nil => simp [wfLookup] at h
  | cons p rest ih =>
    obtain ⟨a, b⟩ := p
    by_cases ha : a = k
    · subst ha
      simp [wfLookup] at h
      simp [h]
    · simp [wfLookup, ha] at h
      exact List.mem_cons_of_mem _ (ih h)

theorem wfLookup_eq_some_of_mem (m : List (String × String)) (k v : String)
    (hnd : (m.map Prod.fst).Nodup) (h : (k, v) ∈ m) :
    wfLookup m k = some v := by
  induction m with
  | nil => simp at h
  | cons p rest ih =>
    obtain ⟨a, b⟩ := p
    simp only [List.map_cons, List.nodup_cons] at hnd
    rcases List.mem_cons.mp h with heq | hmem
    · cases heq
      simp [wfLookup]
    · have hak : a ≠ k := by
        intro hc
        subst hc
        exact hnd.1 (List.mem_map_of_mem Prod.fst hmem)
      simp [wfLookup, hak, ih hnd.2 hmem]

theorem wfSet_keys_of_none (m : List (String × String)) (k v : String)
    (h : wfLookup m k = none) :
    (wfSet m k v).map Prod.fst = m.map Prod.fst ++ [k] := by
  induction m with
  | nil => simp [wfSet]
  | cons p rest ih =>
    obtain ⟨a, b⟩ := p
    by_cases ha : a = k
    · subst ha
      simp [wfLookup] at h
    · simp only [wfLookup, ha, if_neg ha] at h ⊢
      simp [wfSet, ha, ih h]

theorem wfSet_keys_of_some (m : List (String × String)) (k v c : String)
    (h : wfLookup m k = some c) :
    (wfSet m k v).map Prod.fst = m.map Prod.fst := by
  induction m with
  | nil => simp [wfLookup] at h
  | cons p rest ih =>
    obtain ⟨a, b⟩ := p
    by_cases ha : a = k
    · subst ha
      simp [wfSet]
    · simp only [wfLookup, if_neg ha] at h
      simp [wfSet, ha, ih h]

theorem collectStep_nodup (status : String) (m : List (String × String))
    (b : BuildSummaryOutput) (hnd : (m.map Prod.fst).Nodup) :
    ((collectStep status m b).map Prod.fst).Nodup := by
  unfold collectStep
  split
  · exact hnd
  · rename_i w _
    split
    · rename_i hl
      rw [wfSet_keys_of_none m _ _ hl, List.nodup_append]
      refine ⟨hnd, List.nodup_singleton _, ?_⟩
      intro a ha hc
      have hk : w.workflowID ∉ m.map Prod.fst :=
        (wfLookup_eq_none_iff m w.workflowID).mp hl
      rw [List.mem_singleton] at hc
      subst hc
      exact hk ha
    · rename_i c hl
      split
      · rw [wfSet_keys_of_some m _ _ _ hl]
        exact hnd
      · exact hnd

theorem collectWorkflows_nodup (input : List BuildSummaryOutput)
    (status : String) :
    ((collectWorkflows input status).map Prod.fst).Nodup := by
  unfold collectWorkflows
  have h : ∀ (m : List (String × String)), (m.map Prod.fst).Nodup →
      ((input.foldl (collectStep status) m).map Prod.fst).Nodup := by
    induction input with
    | nil => intro m hm; exact hm
    | cons b rest ih =>
      intro m hm
      exact ih _ (collectStep_nodup status m b hm)
  exact h [] (by simp)

/-! ### The first loop computes the per-workflow status reduction -/

theorem statusesOf_cons (b : BuildSummaryOutput)
    (input : List BuildSummaryOutput) (wid : String) :
    statusesOf (b :: input) wid =
      if hasWorkflowID wid b then b.status :: statusesOf input wid
      else statusesOf input wid := by
  unfold statusesOf
  rw [List.filter_cons]
  split
  · simp
  · rfl

theorem collectStep_lookup_other (status : String)
    (m : List (String × String)) (b : BuildSummaryOutput) (wid : String)
    (h : hasWorkflowID wid b = false) :
    wfLookup (collectStep status m b) wid = wfLookup m wid := by
  unfold collectStep
  split
  · rfl
  · rename_i w hw
    have hne : wid ≠ w.workflowID := by
      unfold hasWorkflowID at h
      rw [hw] at h
      simp at h
      exact fun hc => h hc.symm
    split
    · exact wfLookup_wfSet_ne m _ _ _ hne
    · split
      · exact wfLookup_wfSet_ne m _ _ _ hne
      · rfl

theorem collectStep_lookup_self (status : String)
    (m : List (String × String)) (b : BuildSummaryOutput)
    (w : BuildWorkflow) (hw : b.workflow = some w) :
    wfLookup (collectStep status m b) w.workflowID =
      match wfLookup m w.workflowID with
      | none => some b.status
      | some c => some (redStep status c b.status) := by
  unfold collectStep
  rw [hw]
  cases hl : wfLookup m w.workflowID with
  | none =>
    simp only [hl]
    exact wfLookup_wfSet_self m _ _
  | some c =>
    simp only [hl]
    unfold redStep
    split
    · rw [wfLookup_wfSet_self m _ _]
    · exact hl

theorem collect_lookup (status : String) (input : List BuildSummaryOutput)
    (m : List (String × String)) (wid : String) :
    wfLookup (input.foldl (collectStep status) m) wid =
      match wfLookup m wid with
      | some c => some ((statusesOf input wid).foldl (redStep status) c)
      | none =>
        match statusesOf input wid with
        | [] => none
        | s :: rest => some (rest.foldl (redStep status) s) := by
  induction input generalizing m with
  | nil =>
    simp only [List.foldl_nil, statusesOf, List.filter_nil, List.map_nil]
    cases wfLookup m wid <;> rfl
  | cons b rest ih =>
    rw [List.foldl_cons, ih (collectStep status m b), statusesOf_cons]
    by_cases hb : hasWorkflowID wid b
    · obtain ⟨w, hw, hwid⟩ : ∃ w, b.workflow = some w ∧ w.workflowID = wid := by
        unfold hasWorkflowID at hb
        cases hww : b.workflow with
        | none => rw [hww] at hb; simp at hb
        | some w =>
          rw [hww] at hb
          exact ⟨w, rfl, by simpa using hb⟩
      rw [if_pos hb]
      have hself := collectStep_lookup_self status m b w hw
      rw [hwid] at hself
      rw [hself]
      cases hl : wfLookup m wid with
      | none => simp only [hl]
      | some c => simp only [hl, List.foldl_cons]
    · rw [if_neg hb,
        collectStep_lookup_other status m b wid (Bool.not_eq_true _ ▸ hb)]

theorem foldl_redStep_eq_status_iff (status s0 : String) (l : List String) :
    l.foldl (redStep status) s0 = status ↔
      s0 = status ∧ ∀ x ∈ l, x = status := by
  induction l generalizing s0 with
  | nil => simp
  | cons x rest ih =>
    rw [List.foldl_cons, ih]
    constructor
    · intro ⟨hstep, hall⟩
      unfold redStep at hstep
      split at hstep
      · rename_i hcond
        exact absurd hstep hcond.2
      · rename_i hcond
        rw [Decidable.not_and_iff_or_not] at hcond
        rcases hcond with hcond | hcond
        · rw [Decidable.not_not] at hcond
          refine ⟨hstep, fun y hy => ?_⟩
          rcases List.mem_cons.mp hy with rfl | hy
          · exact hcond.trans hstep
          · exact hall y hy
        · rw [Decidable.not_not] at hcond
          refine ⟨hstep, fun y hy => ?_⟩
          rcases List.mem_cons.mp hy with rfl | hy
          · exact hcond
          · exact hall y hy
    · intro ⟨hs0, hall⟩
      have hx : x = status := hall x (List.mem_cons_self x rest)
      have : redStep status s0 x = s0 := by
        unfold redStep
        rw [if_neg]
        intro ⟨_, hc⟩
        exact hc hx
      rw [this]
      exact ⟨hs0, fun y hy => hall y (List.mem_cons_of_mem x hy)⟩

theorem mem_statusesOf_iff (input : List BuildSummaryOutput) (wid st : String) :
    st ∈ statusesOf input wid ↔
      ∃ b ∈ input, hasWorkflowID wid b = true ∧ b.status = st := by
  unfold statusesOf
  simp only [List.mem_map, List.mem_filter]
  constructor
  · intro ⟨b, ⟨hb, hwf⟩, hst⟩
    exact ⟨b, hb, hwf, hst⟩
  · intro ⟨b, hb, hwf, hst⟩
    exact ⟨b, ⟨hb, hwf⟩, hst⟩

theorem hasWorkflowID_iff (wid : String) (b : BuildSummaryOutput) :
    hasWorkflowID wid b = true ↔
      ∃ w, b.workflow = some w ∧ w.workflowID = wid := by
  unfold hasWorkflowID
  cases hw : b.workflow with
  | none => simp
  | some w => simp

theorem mem_outFold (input : List BuildSummaryOutput) (status : String)
    (m : List (String × String)) (acc : List BuildSummaryOutput)
    (b : BuildSummaryOutput) :
    b ∈ m.foldl (outStep input status) acc ↔
      b ∈ acc ∨ ∃ p ∈ m, p.2 = status ∧ b ∈ input ∧
        hasWorkflowID p.1 b = true := by
  induction m generalizing acc with
  | nil => simp
  | cons p rest ih =>
    rw [List.foldl_cons, ih]
    unfold outStep
    split
    · rename_i hne
      constructor
      · rintro (h | ⟨q, hq, hrest⟩)
        · exact Or.inl h
        · exact Or.inr ⟨q, List.mem_cons_of_mem _ hq, hrest⟩
      · rintro (h | ⟨q, hq, hqs, hrest⟩)
        · exact Or.inl h
        · rcases List.mem_cons.mp hq with rfl | hq
          · exact absurd hqs hne
          · exact Or.inr ⟨q, hq, hqs, hrest⟩
    · rename_i hne
      rw [not_ne_iff] at hne
      constructor
      · rintro (h | ⟨q, hq, hrest⟩)
        · rcases List.mem_append.mp h with h | h
          · exact Or.inl h
          · have hf := List.mem_filter.mp h
            exact Or.inr ⟨p, List.mem_cons_self _ _, hne, hf.1, hf.2⟩
        · exact Or.inr ⟨q, List.mem_cons_of_mem _ hq, hrest⟩
      · rintro (h | ⟨q, hq, hqs, hbin, hid⟩)
        · exact Or.inl (List.mem_append.mpr (Or.inl h))
        · rcases List.mem_cons.mp hq with rfl | hq
          · exact Or.inl
              (List.mem_append.mpr (Or.inr (List.mem_filter.mpr ⟨hbin, hid⟩)))
          · exact Or.inr ⟨q, hq, hqs, hbin, hid⟩

theorem mem_filter_iff_lookup (input : List BuildSummaryOutput)
    (status : String) (b : BuildSummaryOutput) :
    b ∈ FilterBuildSummariesByWorkflowStatus input status ↔
      b ∈ input ∧ ∃ w, b.workflow = some w ∧
        wfLookup (collectWorkflows input status) w.workflowID = some status := by
  unfold FilterBuildSummariesByWorkflowStatus
  rw [mem_outFold]
  simp only [List.not_mem_nil, false_or]
  constructor
  · rintro ⟨p, hp, hps, hbin, hid⟩
    obtain ⟨w, hw, hwid⟩ := (hasWorkflowID_iff p.1 b).mp hid
    refine ⟨hbin, w, hw, ?_⟩
    have hlk := wfLookup_eq_some_of_mem _ p.1 p.2
      (collectWorkflows_nodup input status) (by rwa [Prod.mk.eta])
    rw [hwid, hlk, hps]
  · rintro ⟨hbin, w, hw, hlk⟩
    exact ⟨(w.workflowID, status), mem_of_wfLookup_eq_some _ _ _ hlk, rfl,
      hbin, (hasWorkflowID_iff w.workflowID b).mpr ⟨w, hw, rfl⟩⟩

theorem collect_lookup_eq_status_iff (input : List BuildSummaryOutput)
    (status wid : String) :
    wfLookup (collectWorkflows input status) wid = some status ↔
      statusesOf input wid ≠ [] ∧
        ∀ st ∈ statusesOf input wid, st = status := by
  unfold collectWorkflows
  rw [collect_lookup]
  simp only [wfLookup]
  cases hs : statusesOf input wid with
  | nil => simp
  | cons s rest =>
    simp only [ne_eq, reduceCtorEq, not_false_eq_true, true_and,
      Option.some.injEq]
    rw [foldl_redStep_eq_status_iff]
    constructor
    · intro ⟨hs0, hall⟩ st hst
      rcases List.mem_cons.mp hst with rfl | hst
      · exact hs0
      · exact hall st hst
    · intro hall
      exact ⟨hall s (List.mem_cons_self s rest),
        fun x hx => hall x (List.mem_cons_of_mem s hx)⟩

/-- Shared characterization: a summary is returned iff it is an input
summary carrying a workflow association whose workflow id has only
target-status summaries in the input. -/
theorem mem_filter_char (input : List BuildSummaryOutput)
    (status : String) (b : BuildSummaryOutput) :
    b ∈ FilterBuildSummariesByWorkflowStatus input status ↔
      b ∈ input ∧ ∃ w, b.workflow = some w ∧
        ∀ b' ∈ input, ∀ w', b'.workflow = some w' →
          w'.workflowID = w.workflowID → b'.status = status := by
  rw [mem_filter_iff_lookup]
  constructor
  · rintro ⟨hbin, w, hw, hlk⟩
    obtain ⟨-, hall⟩ := (collect_lookup_eq_status_iff input status _).mp hlk
    refine ⟨hbin, w, hw, fun b' hb' w' hw' hwid => ?_⟩
    exact hall b'.status ((mem_statusesOf_iff input _ _).mpr
      ⟨b', hb', (hasWorkflowID_iff _ b').mpr ⟨w', hw', hwid⟩, rfl⟩)
  · rintro ⟨hbin, w, hw, hall⟩
    refine ⟨hbin, w, hw, (collect_lookup_eq_status_iff input status _).mpr
      ⟨?_, fun st hst => ?_⟩⟩
    · intro hempty
      have hb : b.status ∈ statusesOf input w.workflowID :=
        (mem_statusesOf_iff input _ _).mpr
          ⟨b, hbin, (hasWorkflowID_iff _ b).mpr ⟨w, hw, rfl⟩, rfl⟩
      rw [hempty] at hb
      exact List.not_mem_nil _ hb
    · obtain ⟨b', hb', hid, hst'⟩ := (mem_statusesOf_iff input _ _).mp hst
      obtain ⟨w', hw', hwid⟩ := (hasWorkflowID_iff _ b').mp hid
      exact hst' ▸ hall b' hb' w' hw' hwid

/-- Shared consequence: every returned summary has the target status and a
non-nil workflow. -/
theorem filter_status_of_mem (input : List BuildSummaryOutput)
    (status : String) (b : BuildSummaryOutput)
    (hb : b ∈ FilterBuildSummariesByWorkflowStatus input status) :
    b.status = status ∧ b.workflow ≠ none := by
  obtain ⟨hbin, w, hw, hall⟩ := (mem_filter_char input status b).mp hb
  exact ⟨hall b hbin w hw rfl, by rw [hw]; exact fun hc => Option.noConfusion hc⟩

/-- C10: the aggregator returns exactly the input summaries carrying a
workflow association whose workflow id has only target-status summaries in
the input; every returned summary itself has the target status and a
non-nil workflow. -/
theorem filter_membership (input : List BuildSummaryOutput)
    (status : String) (b : BuildSummaryOutput) :
    (b ∈ FilterBuildSummariesByWorkflowStatus input status ↔
      b ∈ input ∧ ∃ w, b.workflow = some w ∧
        ∀ b' ∈ input, ∀ w', b'.workflow = some w' →
          w'.workflowID = w.workflowID → b'.status = status) ∧
    (b ∈ FilterBuildSummariesByWorkflowStatus input status →
      b.status = status ∧ b.workflow ≠ none) :=
  ⟨mem_filter_char input status b, filter_status_of_mem input status b⟩

/-- C10 witness: the characterization applied at a one-summary input. -/
theorem filter_membership_instance :
    ({ buildNum := 7, username := "u", lifecycle := "finished",
       reponame := "repo", outcome := "success", status := "success",
       branch := "master", revision := "r", user := none, queuedAt := none,
       stoppedAt := none, vcs := "github", vcsTag := "",
       workflow := some ⟨"job", "jid", "wf", "W", "ws", []⟩ } :
        BuildSummaryOutput) ∈
      FilterBuildSummariesByWorkflowStatus
        [{ buildNum := 7, username := "u", lifecycle := "finished",
           reponame := "repo", outcome := "success", status := "success",
           branch := "master", revision := "r", user := none,
           queuedAt := none, stoppedAt := none, vcs := "github",
           vcsTag := "", workflow := some ⟨"job", "jid", "wf", "W", "ws", []⟩ }]
        "success" :=
  (filter_membership _ "success" _).1.mpr
    ⟨List.mem_singleton_self _, ⟨"job", "jid", "wf", "W", "ws", []⟩, rfl,
      by
        intro b' hb' w' hw' _
        rw [List.mem_singleton] at hb'
        subst hb'
        rfl⟩

/-- C9: the aggregator is idempotent on the set of returned summaries. -/
theorem filter_idempotent (input : List BuildSummaryOutput) (status : String)
    (b : BuildSummaryOutput) :
    b ∈ FilterBuildSummariesByWorkflowStatus
        (FilterBuildSummariesByWorkflowStatus input status) status ↔
      b ∈ FilterBuildSummariesByWorkflowStatus input status := by
  constructor
  · intro h
    exact ((mem_filter_char _ status b).mp h).1
  · intro h
    obtain ⟨-, w, hw, -⟩ := (mem_filter_char input status b).mp h
    refine (mem_filter_char _ status b).mpr ⟨h, w, hw, ?_⟩
    intro b' hb' w' _ _
    exact (filter_status_of_mem input status b' hb').1

/-- Test fixture: a build summary with the given status and workflow, all
other fields blank. -/
def sampleSummary (st : String) (wf : Option BuildWorkflow) :
    BuildSummaryOutput :=
  { buildNum := 0, username := "", lifecycle := "", reponame := "",
    outcome := "", status := st, branch := "", revision := "", user := none,
    queuedAt := none, stoppedAt := none, vcs := "", vcsTag := "",
    workflow := wf }

/-- Test fixture: a workflow association with id `W`. -/
def wfW : BuildWorkflow := ⟨"job", "jid", "wf", "W", "ws", []⟩

/-- C2: a workflow whose summaries appear in input order with statuses
["failed", "success"] reduces to "failed" under target "success", so none
of its summaries are returned; and in general, once a status is recorded
for a workflow id, a later summary with the target status never overwrites
it, while a later summary with a different non-target status does. -/
theorem filter_failed_then_success (input : List BuildSummaryOutput)
    (W : String) (h : statusesOf input W = ["failed", "success"]) :
    wfLookup (collectWorkflows input "success") W = some "failed" ∧
    (∀ b ∈ FilterBuildSummariesByWorkflowStatus input "success",
      ∀ w, b.workflow = some w → w.workflowID ≠ W) ∧
    (∀ (m : List (String × String)) (b : BuildSummaryOutput)
      (w : BuildWorkflow) (current target : String),
      b.workflow = some w → wfLookup m w.workflowID = some current →
      (b.status = target →
        wfLookup (collectStep target m b) w.workflowID = some current) ∧
      (b.status ≠ target → b.status ≠ current →
        wfLookup (collectStep target m b) w.workflowID = some b.status)) := by
  have h1 : wfLookup (collectWorkflows input "success") W = some "failed" := by
    unfold collectWorkflows
    rw [collect_lookup]
    simp only [wfLookup]
    rw [h]
    rfl
  refine ⟨h1, ?_, ?_⟩
  · intro b hb w hw hc
    obtain ⟨-, w', hw', hlk⟩ := (mem_filter_iff_lookup input "success" b).mp hb
    rw [hw'] at hw
    cases Option.some.inj hw
    rw [hc] at hlk
    exact absurd (h1.symm.trans hlk) (by decide)
  · intro m b w current target hw hlk
    constructor
    · intro hst
      rw [collectStep_lookup_self target m b w hw, hlk]
      show some (redStep target current b.status) = some current
      unfold redStep
      rw [if_neg (fun hc => hc.2 hst)]
    · intro hst hne
      rw [collectStep_lookup_self target m b w hw, hlk]
      show some (redStep target current b.status) = some b.status
      unfold redStep
      rw [if_pos ⟨hne, hst⟩]

/-- C2 witness: the theorem applied to the concrete two-summary input of
scenario E. -/
theorem filter_failed_then_success_witness :
    wfLookup (collectWorkflows
      [sampleSummary "failed" (some wfW), sampleSummary "success" (some wfW)]
      "success") "W" = some "failed" :=
  (filter_failed_then_success
    [sampleSummary "failed" (some wfW), sampleSummary "success" (some wfW)]
    "W" (by rfl)).1

/-! ## Skip Decision
`shouldSkip` from `runner.go`.  The build history (the list
`FindBuildSummaries` returned for the project and selector) and the current
time are parameters of the embedding; the two local `let`s of the Go body
are inlined. -/

/-- The maximum non-nil `stoppedAt` over the filtered summaries, computed
exactly as the `lastSuccess` loop of `shouldSkip` computes it. -/
def lastSuccessOf (filteredBuilds : List BuildSummaryOutput) : Option Int :=
  filteredBuilds.foldl
    (fun lastSuccess b =>
      match b.stoppedAt with
      | none => lastSuccess
      | some t =>
        match lastSuccess with
        | none => some t
        | some l => if t > l then some t else some l)
    none

/-- Two's-complement wraparound of Go's 64-bit integer arithmetic: the
value congruent to `x` modulo 2^64 lying in [-2^63, 2^63). -/
def wrap64 (x : Int) : Int :=
  (x + 9223372036854775808) % 18446744073709551616 - 9223372036854775808

/-- The skip cutoff `time.Now().Add(time.Duration((skipDays*24)*-1) *
time.Hour)` from `runner.go`.  `skipDays*24`, its negation, and the
multiplication by `time.Hour` (3600000000000 ns) are all int64 operations
and wrap; the final `Time.Add` lands in the time line, modelled as
unbounded `Int`. -/
def skipCutoff (now skipDays : Int) : Int :=
  now + wrap64 (wrap64 (wrap64 (skipDays * 24) * -1) * 3600000000000)

/-- `shouldSkip` from `runner.go`: skip when a successful build exists and
either skipDays = -1 or the last success is newer than the cutoff. -/
def shouldSkip (rawBuilds : List BuildSummaryOutput) (now skipDays : Int) :
    Bool :=
  match lastSuccessOf
      (FilterBuildSummariesByWorkflowStatus rawBuilds "success") with
  | none => false
  | some lastSuccess =>
    if skipDays = -1 then true
    else lastSuccess > skipCutoff now skipDays

/-- Test fixture: a successful build of workflow `W` stopped at time `t`. -/
def successAt (t : Int) : BuildSummaryOutput :=
  { sampleSummary "success" (some wfW) with stoppedAt := some t }

/-- C3 counterexample: the skip decision is not monotone in skipDays.
First failure mode: with one successful build stopped at time 0 and
current time 1000, `shouldSkip` is true at skipDays = -1 but false at
skipDays = 0 > -1.  Second failure mode: the int64 duration arithmetic
wraps at skipDays = 106752 ((skipDays·24) hours exceeds int64 nanoseconds),
throwing the cutoff ~292 years into the future, so with a success stopped
just before `now` the decision is true at 106751 and false at 106752. -/
theorem shouldSkip_monotone_counterexample :
    (shouldSkip [successAt 0] 1000 (-1) = true ∧
     shouldSkip [successAt 0] 1000 0 = false ∧ (-1 : Int) < 0) ∧
    (shouldSkip [successAt (-1)] 0 106751 = true ∧
     shouldSkip [successAt (-1)] 0 106752 = false ∧
     (106751 : Int) < 106752) := by
  refine ⟨⟨rfl, ?_, by decide⟩, ⟨?_, ?_, by decide⟩⟩
  · decide
  · decide
  · decide

theorem wrap64_eq_self (x : Int) (h1 : -9223372036854775808 ≤ x)
    (h2 : x < 9223372036854775808) : wrap64 x = x := by
  unfold wrap64
  have h3 : (x + 9223372036854775808) % 18446744073709551616 =
      x + 9223372036854775808 :=
    Int.emod_eq_of_lt (by omega) (by omega)
  omega

/-- Inside the overflow-free window |skipDays| ≤ 106751, the wrapped
cutoff coincides with the exact one. -/
theorem skipCutoff_eq (now skipDays : Int) (hlo : -106751 ≤ skipDays)
    (hhi : skipDays ≤ 106751) :
    skipCutoff now skipDays = now - skipDays * 24 * 3600000000000 := by
  unfold skipCutoff
  rw [wrap64_eq_self (skipDays * 24) (by omega) (by omega)]
  rw [wrap64_eq_self (skipDays * 24 * -1) (by omega) (by omega)]
  rw [wrap64_eq_self (skipDays * 24 * -1 * 3600000000000) (by omega)
    (by omega)]
  omega

theorem shouldSkip_none_eq (rawBuilds : List BuildSummaryOutput)
    (now skipDays : Int)
    (hl : lastSuccessOf
      (FilterBuildSummariesByWorkflowStatus rawBuilds "success") = none) :
    shouldSkip rawBuilds now skipDays = false := by
  unfold shouldSkip
  rw [hl]

theorem shouldSkip_some_eq (rawBuilds : List BuildSummaryOutput)
    (now skipDays last : Int)
    (hl : lastSuccessOf
      (FilterBuildSummariesByWorkflowStatus rawBuilds "success") =
        some last) :
    shouldSkip rawBuilds now skipDays =
      if skipDays = -1 then true
      else last > skipCutoff now skipDays := by
  unfold shouldSkip
  rw [hl]

/-- C3 amended: for a fixed history and current time, `shouldSkip` is
monotone in skipDays on the overflow-free window: if it returns true for
skipDays = D with D ≠ -1 and -106751 ≤ D, then it returns true for every
D' with D < D' ≤ 106751.  (At D = -1 the sentinel breaks monotonicity, and
past |skipDays| = 106751 the int64 duration arithmetic wraps and breaks it
again; see the counterexample.) -/
theorem shouldSkip_monotone (rawBuilds : List BuildSummaryOutput)
    (now D D' : Int) (hD : D ≠ -1) (hDlo : -106751 ≤ D)
    (hD'hi : D' ≤ 106751) (hlt : D < D')
    (h : shouldSkip rawBuilds now D = true) :
    shouldSkip rawBuilds now D' = true := by
  cases hl : lastSuccessOf
      (FilterBuildSummariesByWorkflowStatus rawBuilds "success") with
  | none =>
    rw [shouldSkip_none_eq rawBuilds now D hl] at h
    exact absurd h (by simp)
  | some last =>
    rw [shouldSkip_some_eq rawBuilds now D last hl, if_neg hD,
      decide_eq_true_eq] at h
    rw [shouldSkip_some_eq rawBuilds now D' last hl]
    by_cases hD' : D' = -1
    · rw [if_pos hD']
    · rw [if_neg hD', decide_eq_true_eq]
      rw [skipCutoff_eq now D (by omega) (by omega)] at h
      rw [skipCutoff_eq now D' (by omega) (by omega)]
      omega

/-- C3 amended witness: monotonicity applied at D = 0, D' = 1 on a history
whose last success lies in the future of `now`. -/
theorem shouldSkip_monotone_witness :
    shouldSkip [successAt 2000] 1000 1 = true :=
  shouldSkip_monotone [successAt 2000] 1000 0 1 (by decide) (by decide)
    (by decide) (by decide) (by decide)

/-! ## Build Correlator
The scan loop of `(*Client).findBuildSummary` from `circleci/circleci.go`.
The results of the two remote calls it makes first — `BuildSummary` (the
listed summaries) and `Me` (the current user) — are parameters of the pure
core; their error paths return before the scan is reached.  A summary whose
`User` pointer is nil cannot be returned by the Go code (the field access
faults), so the embedding treats it as a non-match. -/
def findBuildSummary (summaries : List BuildSummaryOutput) (me : User)
    (input : BuildProjectInput) (after : Int) : Option BuildSummaryOutput :=
  summaries.find? (fun summary =>
    match summary.queuedAt with
    | none => false
    | some q =>
      matchSummary input summary &&
        (match summary.user with
         | none => false
         | some u => u.username = me.username) &&
        decide (q - after > 0))

/-- C4: every summary the correlator returns has a queued timestamp
strictly after the anchor, matches the selector, and belongs to the current
user; in particular a summary queued at or before the anchor, or lacking a
queued timestamp, is never returned. -/
theorem findBuildSummary_anchor (summaries : List BuildSummaryOutput)
    (me : User) (input : BuildProjectInput) (after : Int)
    (r : BuildSummaryOutput)
    (h : findBuildSummary summaries me input after = some r) :
    (∃ q, r.queuedAt = some q ∧ q > after) ∧
    matchSummary input r = true ∧
    (∃ u, r.user = some u ∧ u.username = me.username) ∧
    r ∈ summaries := by
  unfold findBuildSummary at h
  have hp := List.find?_some h
  have hmem := List.mem_of_find?_eq_some h
  cases hq : r.queuedAt with
  | none =>
    rw [hq] at hp
    simp at hp
  | some q =>
    rw [hq] at hp
    simp only [Bool.and_eq_true, decide_eq_true_eq] at hp
    obtain ⟨⟨hmatch, huser⟩, hsub⟩ := hp
    refine ⟨⟨q, rfl, by omega⟩, hmatch, ?_, hmem⟩
    cases hu : r.user with
    | none =>
      rw [hu] at huser
      simp at huser
    | some u =>
      rw [hu] at huser
      simp only [decide_eq_true_eq] at huser
      exact ⟨u, rfl, huser⟩

/-- Test fixture: a summary with queued timestamp 5 owned by user "me". -/
def sQueued : BuildSummaryOutput :=
  { sampleSummary "success" none with
      queuedAt := some 5
      user := some ⟨"me", "Me"⟩ }

/-- C4 witness: the theorem applied to a one-summary listing located by the
all-empty selector with anchor 0. -/
theorem findBuildSummary_anchor_witness :
    matchSummary ⟨"", "", ""⟩ sQueued = true ∧ sQueued ∈ [sQueued] :=
  ⟨(findBuildSummary_anchor [sQueued] ⟨"me", "Me"⟩ ⟨"", "", ""⟩ 0 sQueued
      (by decide)).2.1,
   (findBuildSummary_anchor [sQueued] ⟨"me", "Me"⟩ ⟨"", "", ""⟩ 0 sQueued
      (by decide)).2.2.2⟩

/-! ## Retry Wrapper
`retrier` from `circleci/helpers.go`.  The effectful operation is modelled
as the sequence of its per-invocation results: `fn k` is what the (k+1)-th
invocation returns, `none` meaning success.  The inter-attempt sleep has no
observable effect in the embedding.  With `attempts = 0` the Go loop body
never runs and the zero-valued `err` (nil) is returned. -/
def retrierRun {ε : Type} (fn : Nat → Option ε) (attempt : Nat) :
    Nat → Option ε
  | 0 => none
  | 1 => fn attempt
  | r + 2 =>
    match fn attempt with
    | none => none
    | some _ => retrierRun fn (attempt + 1) (r + 1)

/-- `retrier(intervalSecs, attempts, fn)` from `circleci/helpers.go`. -/
def retrier {ε : Type} (_intervalSecs : Nat) (attempts : Nat)
    (fn : Nat → Option ε) : Option ε :=
  retrierRun fn 0 attempts

/-- The number of invocations of `fn` that `retrier` performs. -/
def retrierCalls {ε : Type} (fn : Nat → Option ε) (attempt : Nat) :
    Nat → Nat
  | 0 => 0
  | 1 => 1
  | r + 2 =>
    match fn attempt with
    | none => 1
    | some _ => 1 + retrierCalls fn (attempt + 1) (r + 1)

theorem retrierCalls_le {ε : Type} (fn : Nat → Option ε) (n : Nat) :
    ∀ attempt, retrierCalls fn attempt n ≤ n := by
  induction n using Nat.strong_induction_on with
  | _ n ih =>
    intro attempt
    match n with
    | 0 => exact Nat.le.refl
    | 1 => exact Nat.le.refl
    | r + 2 =>
      unfold retrierCalls
      cases hf : fn attempt with
      | none =>
        show 1 ≤ r + 2
        omega
      | some e =>
        show 1 + retrierCalls fn (attempt + 1) (r + 1) ≤ r + 2
        have := ih (r + 1) (by omega) (attempt + 1)
        omega

theorem retrierRun_all_fail {ε : Type} (fn : Nat → Option ε) (n : Nat) :
    ∀ attempt, 1 ≤ n → (∀ i, i < n → fn (attempt + i) ≠ none) →
      retrierRun fn attempt n = fn (attempt + n - 1) := by
  induction n using Nat.strong_induction_on with
  | _ n ih =>
    intro attempt hn hall
    match n, hn, hall with
    | 1, _, _ =>
      show fn attempt = fn (attempt + 1 - 1)
      simp
    | r + 2, _, hall =>
      unfold retrierRun
      cases hf : fn attempt with
      | none =>
        refine absurd hf ?_
        have := hall 0 (by omega)
        simpa using this
      | some e =>
        show retrierRun fn (attempt + 1) (r + 1) = fn (attempt + (r + 2) - 1)
        rw [ih (r + 1) (by omega) (attempt + 1) (by omega)
          (by intro i hi
              rw [show attempt + 1 + i = attempt + (i + 1) from by omega]
              exact hall (i + 1) (by omega))]
        congr 1
        omega

theorem retrierRun_first_success {ε : Type} (fn : Nat → Option ε) (j : Nat) :
    ∀ attempt n, j < n → fn (attempt + j) = none →
      (∀ i, i < j → fn (attempt + i) ≠ none) →
      retrierRun fn attempt n = none ∧ retrierCalls fn attempt n = j + 1 := by
  induction j with
  | zero =>
    intro attempt n hj hnone hbefore
    match n, hj with
    | 1, _ =>
      refine ⟨by simpa using hnone, rfl⟩
    | r + 2, _ =>
      unfold retrierRun retrierCalls
      rw [show fn attempt = none from by simpa using hnone]
      exact ⟨rfl, rfl⟩
  | succ j' ih =>
    intro attempt n hj hnone hbefore
    match n, hj with
    | 1, hj => omega
    | r + 2, _ =>
      unfold retrierRun retrierCalls
      cases hfa : fn attempt with
      | none =>
        refine absurd hfa ?_
        have := hbefore 0 (by omega)
        simpa using this
      | some e =>
        have hrec := ih (attempt + 1) (r + 1) (by omega)
          (by rw [show attempt + 1 + j' = attempt + (j' + 1) from by omega]
              exact hnone)
          (by intro i hi
              rw [show attempt + 1 + i = attempt + (i + 1) from by omega]
              exact hbefore (i + 1) (by omega))
        constructor
        · show retrierRun fn (attempt + 1) (r + 1) = none
          exact hrec.1
        · show 1 + retrierCalls fn (attempt + 1) (r + 1) = j' + 1 + 1
          rw [hrec.2]
          omega

/-- C6: for every attempt budget N ≥ 1 the retrier invokes the operation
at most N times, returns nil right after the first invocation returning
nil with no further invocations, and, when all N invocations fail, returns
the error of the N-th (most recent) invocation. -/
theorem retrier_contract {ε : Type} (N : Nat) (fn : Nat → Option ε)
    (hN : 1 ≤ N) :
    retrierCalls fn 0 N ≤ N ∧
    (∀ j, j < N → fn j = none → (∀ i, i < j → fn i ≠ none) →
      retrier 30 N fn = none ∧ retrierCalls fn 0 N = j + 1) ∧
    ((∀ i, i < N → fn i ≠ none) → retrier 30 N fn = fn (N - 1)) := by
  refine ⟨retrierCalls_le fn N 0, ?_, ?_⟩
  · intro j hj hnone hbefore
    exact retrierRun_first_success fn j 0 N hj (by simpa using hnone)
      (by intro i hi; simpa using hbefore i hi)
  · intro hall
    have h := retrierRun_all_fail fn N 0 hN
      (by intro i hi; simpa using hall i hi)
    simpa using h

/-- Test fixture: an operation whose first invocation succeeds. -/
def fnFirstOk : Nat → Option Nat := fun i => if i = 0 then none else some i

/-- C6 witness: the contract applied with budget 3 to an operation whose
first invocation succeeds. -/
theorem retrier_contract_witness :
    retrier 30 3 fnFirstOk = none ∧ retrierCalls fnFirstOk 0 3 = 1 :=
  (retrier_contract 3 fnFirstOk (by decide)).2.1 0 (by decide) (by decide)
    (fun i hi => absurd hi (Nat.not_lt_zero i))

/-! ## Polling Primitive
`waiter` from `circleci/helpers.go`.  Wall-clock time is modelled by the
sequence `now k` of times observed at the deadline check of loop iteration
k; the iteration index coincides with the checker counter, which the loop
increases exactly once per full iteration.  The checker's effect is
modelled by the function from the invocation counter to its
`(done, err)` result.  The Go loop can run forever, so the embedding takes
a fuel bound and returns `none` when fuel runs out before the loop
returns. -/

/-- The three ways `waiter` returns: a `timeoutExceededError`, nil, or the
checker's error. -/
inductive WaiterResult (ε : Type) where
  | timeout
  | ok
  | err (e : ε)
deriving Repr, DecidableEq

/-- `waiter` from `circleci/helpers.go`: fail once the deadline is observed
to have passed, otherwise sleep, invoke the checker, propagate its error,
stop on done, and loop with the counter increased. -/
def waiterRun {ε : Type} (now : Nat → Int) (endTime : Int)
    (checker : Nat → Bool × Option ε) (count : Nat) :
    Nat → Option (WaiterResult ε)
  | 0 => none
  | fuel + 1 =>
    if now count > endTime then some WaiterResult.timeout
    else
      match checker count with
      | (_, some e) => some (WaiterResult.err e)
      | (true, none) => some WaiterResult.ok
      | (false, none) => waiterRun now endTime checker (count + 1) fuel

/-- The counter values the checker is invoked with, in invocation order. -/
def waiterCalls {ε : Type} (now : Nat → Int) (endTime : Int)
    (checker : Nat → Bool × Option ε) (count : Nat) : Nat → List Nat
  | 0 => []
  | fuel + 1 =>
    if now count > endTime then []
    else
      match checker count with
      | (_, some _) => [count]
      | (true, none) => [count]
      | (false, none) =>
        count :: waiterCalls now endTime checker (count + 1) fuel

theorem waiterRun_timeout_iff {ε : Type} (now : Nat → Int) (endTime : Int)
    (checker : Nat → Bool × Option ε) (fuel : Nat) :
    ∀ count, waiterRun now endTime checker count fuel =
        some WaiterResult.timeout ↔
      ∃ k, k < fuel ∧ now (count + k) > endTime ∧
        ∀ i, i < k → now (count + i) ≤ endTime ∧
          checker (count + i) = (false, none) := by
  induction fuel with
  | zero =>
    intro count
    constructor
    · intro h
      exact Option.noConfusion h
    · intro ⟨k, hk, _⟩
      omega
  | succ f ih =>
    intro count
    unfold waiterRun
    by_cases hdl : now count > endTime
    · rw [if_pos hdl]
      constructor
      · intro _
        exact ⟨0, by omega, by simpa using hdl, fun i hi => absurd hi (by omega)⟩
      · intro _
        rfl
    · rw [if_neg hdl]
      cases hc : checker count with
      | mk d oe =>
        cases oe with
        | some e =>
          constructor
          · intro h
            exact absurd h (by simp)
          · intro ⟨k, hk, hkt, hbef⟩
            match k with
            | 0 => exact absurd (by simpa using hkt) hdl
            | k' + 1 =>
              have := (hbef 0 (by omega)).2
              rw [show count + 0 = count from rfl, hc] at this
              exact absurd this (by simp)
        | none =>
          cases d with
          | true =>
            constructor
            · intro h
              exact absurd h (by simp)
            · intro ⟨k, hk, hkt, hbef⟩
              match k with
              | 0 => exact absurd (by simpa using hkt) hdl
              | k' + 1 =>
                have := (hbef 0 (by omega)).2
                rw [show count + 0 = count from rfl, hc] at this
                exact absurd this (by simp)
          | false =>
            rw [ih (count + 1)]
            constructor
            · intro ⟨k, hk, hkt, hbef⟩
              refine ⟨k + 1, by omega, ?_, ?_⟩
              · rw [show count + (k + 1) = count + 1 + k from by omega]
                exact hkt
              · intro i hi
                match i with
                | 0 => exact ⟨by simpa using (Int.not_lt.mp hdl), by simpa using hc⟩
                | i' + 1 =>
                  have := hbef i' (by omega)
                  rw [show count + (i' + 1) = count + 1 + i' from by omega]
                  exact this
            · intro ⟨k, hk, hkt, hbef⟩
              match k, hk with
              | 0, _ => exact absurd (by simpa using hkt) hdl
              | k' + 1, _ =>
                refine ⟨k', by omega, ?_, ?_⟩
                · rw [show count + 1 + k' = count + (k' + 1) from by omega]
                  exact hkt
                · intro i hi
                  have := hbef (i + 1) (by omega)
                  rw [show count + 1 + i = count + (i + 1) from by omega]
                  exact this

theorem waiterRun_stops {ε : Type} (now : Nat → Int) (endTime : Int)
    (checker : Nat → Bool × Option ε) (k : Nat) :
    ∀ count fuel, k < fuel →
      (∀ i, i < k → now (count + i) ≤ endTime ∧
        checker (count + i) = (false, none)) →
      now (count + k) ≤ endTime →
      (∀ d e, checker (count + k) = (d, some e) →
        waiterRun now endTime checker count fuel =
          some (WaiterResult.err e)) ∧
      (checker (count + k) = (true, none) →
        waiterRun now endTime checker count fuel = some WaiterResult.ok) := by
  induction k with
  | zero =>
    intro count fuel hk hbef hnow
    match fuel, hk with
    | f + 1, _ =>
      unfold waiterRun
      rw [if_neg (Int.not_lt.mpr (by simpa using hnow))]
      constructor
      · intro d e hc
        rw [show checker count = (d, some e) from by simpa using hc]
        cases d <;> rfl
      · intro hc
        rw [show checker count = (true, none) from by simpa using hc]
  | succ k' ih =>
    intro count fuel hk hbef hnow
    match fuel, hk with
    | f + 1, _ =>
      have h0 := hbef 0 (by omega)
      rw [show count + 0 = count from rfl] at h0
      unfold waiterRun
      rw [if_neg (Int.not_lt.mpr h0.1), h0.2]
      have hrec := ih (count + 1) f (by omega)
        (by intro i hi
            rw [show count + 1 + i = count + (i + 1) from by omega]
            exact hbef (i + 1) (by omega))
        (by rw [show count + 1 + k' = count + (k' + 1) from by omega]
            exact hnow)
      constructor
      · intro d e hc
        exact hrec.1 d e
          (by rw [show count + 1 + k' = count + (k' + 1) from by omega]
              exact hc)
      · intro hc
        exact hrec.2
          (by rw [show count + 1 + k' = count + (k' + 1) from by omega]
              exact hc)

theorem waiterCalls_range {ε : Type} (now : Nat → Int) (endTime : Int)
    (checker : Nat → Bool × Option ε) (fuel : Nat) :
    ∀ count, ∃ m, waiterCalls now endTime checker count fuel =
      (List.range m).map (· + count) := by
  induction fuel with
  | zero =>
    intro count
    exact ⟨0, rfl⟩
  | succ f ih =>
    intro count
    unfold waiterCalls
    by_cases hdl : now count > endTime
    · rw [if_pos hdl]
      exact ⟨0, rfl⟩
    · rw [if_neg hdl]
      cases hc : checker count with
      | mk d oe =>
        cases oe with
        | some e => exact ⟨1, by simp [List.range_succ]⟩
        | none =>
          cases d with
          | true => exact ⟨1, by simp [List.range_succ]⟩
          | false =>
            obtain ⟨m, hm⟩ := ih (count + 1)
            refine ⟨m + 1, ?_⟩
            rw [hm, List.range_succ_eq_map]
            simp only [List.map_cons, List.map_map, Nat.zero_add]
            congr 1
            apply List.map_congr_left
            intro a _
            simp only [Function.comp_apply]
            omega

/-- C7: the waiter returns a timeout error exactly when the deadline is
observed to have passed before the checker signals done or errors; a
checker error is returned immediately and unchanged; done yields nil; and
the checker receives the counter values 0, 1, 2, … in order. -/
theorem waiter_contract {ε : Type} (now : Nat → Int) (endTime : Int)
    (checker : Nat → Bool × Option ε) (fuel : Nat) :
    (waiterRun now endTime checker 0 fuel = some WaiterResult.timeout ↔
      ∃ k, k < fuel ∧ now k > endTime ∧
        ∀ i, i < k → now i ≤ endTime ∧ checker i = (false, none)) ∧
    (∀ k d e, k < fuel →
      (∀ i, i < k → now i ≤ endTime ∧ checker i = (false, none)) →
      now k ≤ endTime → checker k = (d, some e) →
      waiterRun now endTime checker 0 fuel = some (WaiterResult.err e)) ∧
    (∀ k, k < fuel →
      (∀ i, i < k → now i ≤ endTime ∧ checker i = (false, none)) →
      now k ≤ endTime → checker k = (true, none) →
      waiterRun now endTime checker 0 fuel = some WaiterResult.ok) ∧
    (∃ m, waiterCalls now endTime checker 0 fuel = List.range m) := by
  refine ⟨?_, ?_, ?_, ?_⟩
  · rw [waiterRun_timeout_iff now endTime checker fuel 0]
    constructor
    · intro ⟨k, hk, hkt, hbef⟩
      exact ⟨k, hk, by simpa using hkt,
        fun i hi => by simpa using hbef i hi⟩
    · intro ⟨k, hk, hkt, hbef⟩
      exact ⟨k, hk, by simpa using hkt,
        fun i hi => by simpa using hbef i hi⟩
  · intro k d e hk hbef hnow hc
    exact (waiterRun_stops now endTime checker k 0 fuel hk
      (fun i hi => by simpa using hbef i hi) (by simpa using hnow)).1 d e
      (by simpa using hc)
  · intro k hk hbef hnow hc
    exact (waiterRun_stops now endTime checker k 0 fuel hk
      (fun i hi => by simpa using hbef i hi) (by simpa using hnow)).2
      (by simpa using hc)
  · obtain ⟨m, hm⟩ := waiterCalls_range now endTime checker fuel 0
    refine ⟨m, ?_⟩
    rw [hm]
    simp

/-- Test fixture: observed time advancing one unit per iteration. -/
def nowLin : Nat → Int := fun k => (k : Int)

/-- Test fixture: a checker that errors on its third invocation. -/
def checkerErrAt2 : Nat → Bool × Option Nat := fun i =>
  if i = 2 then (false, some 42) else (false, none)

/-- C7 witness: the contract applied to a run whose checker errors at
counter 2 well before the deadline. -/
theorem waiter_contract_witness :
    waiterRun nowLin 10 checkerErrAt2 0 9 = some (WaiterResult.err 42) :=
  (waiter_contract nowLin 10 checkerErrAt2 9).2.1 2 false 42 (by decide)
    (by intro i hi
        interval_cases i <;> exact ⟨by decide, by decide⟩)
    (by decide) (by decide)

/-! ## Build-Lifecycle Tracker
`WaitForProjectBuild` from `circleci/circleci.go` (the current version,
which validates the final workflow status on next-build timeout) together
with `finalWorkflowStatus` from `circleci/helpers.go`.  Go dispatches on
the concrete error type `*timeoutExceededError`; the embedding models the
error taxonomy as an inductive with one constructor per named condition and
an opaque catch-all. -/

/-- The error kinds the tracker observes or produces. -/
inductive CCError where
  | timeoutExceeded
  | jobTimeoutExceeded (reponame : String) (buildNum : Int)
  | buildFailed (reponame : String) (buildNum : Int)
  | missingWorkflowDetails (buildNum : Int)
  | summariesListFailed
  | workflowFailed (reponame workflowName jobName status : String)
  | other (message : String)
deriving Repr, DecidableEq

/-- The Go type test `err.(*timeoutExceededError)`. -/
def isTimeoutExceeded : CCError → Bool
  | CCError.timeoutExceeded => true
  | _ => false

/-- The failing-summary test inside the loop of `finalWorkflowStatus`:
the summary matches the selector, carries the workflow id, and has a
status other than "success". -/
def badSummary (input : BuildProjectInput) (workflowID : String)
    (s : BuildSummaryOutput) : Bool :=
  matchSummary input s &&
    (match s.workflow with
     | none => false
     | some w => w.workflowID = workflowID) &&
    s.status ≠ "success"

/-- `finalWorkflowStatus` from `circleci/helpers.go`: re-list the build
summaries (the retried `BuildSummary` call is modelled by its final result,
`none` when it failed after all retries) and fail on the first summary
matching the selector and workflow id whose status is not "success". -/
def finalWorkflowStatus (summaries : Option (List BuildSummaryOutput))
    (input : BuildProjectInput) (workflowID : String) : Option CCError :=
  match summaries with
  | none => some CCError.summariesListFailed
  | some l =>
    match l.find? (badSummary input workflowID) with
    | some s =>
      some (CCError.workflowFailed s.reponame
        (match s.workflow with
         | none => ""
         | some w => w.workflowName)
        (match s.workflow with
         | none => ""
         | some w => w.jobName)
        s.status)
    | none => none

/-- The tracker's environment: the observable outcomes of the client calls
it makes, indexed by loop iteration — `waitForBuild` (per iteration and
build number), `waitForNextBuild` (per iteration and workflow id), and the
summary listing `finalWorkflowStatus` performs. -/
structure WaitEnv where
  waitForBuild : Nat → Int → Except CCError Build
  nextBuild : Nat → String → Except CCError BuildSummaryOutput
  finalList : Option (List BuildSummaryOutput)

/-- The loop of `WaitForProjectBuild` from `circleci/circleci.go`, with
fuel bounding the number of iterations: `none` means no return was reached
(fuel ran out, or the nil `*bool` failure-flag dereference faulted),
`some none` a nil return, `some (some e)` an error return. -/
def waitLoop (env : WaitEnv) (project : Project)
    (input : BuildProjectInput) (continueOnFail : Bool) :
    Nat → Int → Nat → Option (Option CCError)
  | _, _, 0 => none
  | k, buildNum, fuel + 1 =>
    match env.waitForBuild k buildNum with
    | Except.error e => some (some e)
    | Except.ok build =>
      match build.failed with
      | none => none
      | some f =>
        if f then
          if continueOnFail then some none
          else some (some (CCError.buildFailed project.reponame buildNum))
        else
          match build.workflow with
          | none => some (some (CCError.missingWorkflowDetails buildNum))
          | some wf =>
            match env.nextBuild k wf.workflowID with
            | Except.error e =>
              if isTimeoutExceeded e then
                some (finalWorkflowStatus env.finalList input wf.workflowID)
              else some (some e)
            | Except.ok s =>
              waitLoop env project input continueOnFail (k + 1) s.buildNum fuel

/-- The number of next-build lookups (`waitForNextBuild` calls) the loop
performs. -/
def waitLoopNextCalls (env : WaitEnv) (project : Project)
    (input : BuildProjectInput) (continueOnFail : Bool) :
    Nat → Int → Nat → Nat
  | _, _, 0 => 0
  | k, buildNum, fuel + 1 =>
    match env.waitForBuild k buildNum with
    | Except.error _ => 0
    | Except.ok build =>
      match build.failed with
      | none => 0
      | some f =>
        if f then 0
        else
          match build.workflow with
          | none => 0
          | some wf =>
            match env.nextBuild k wf.workflowID with
            | Except.error _ => 1
            | Except.ok s =>
              1 + waitLoopNextCalls env project input continueOnFail (k + 1)
                s.buildNum fuel

theorem badSummary_eq_true_iff (input : BuildProjectInput) (wid : String)
    (s : BuildSummaryOutput) :
    badSummary input wid s = true ↔
      matchSummary input s = true ∧
      (∃ w, s.workflow = some w ∧ w.workflowID = wid) ∧
      s.status ≠ "success" := by
  unfold badSummary
  cases hw : s.workflow with
  | none => simp
  | some w => simp [and_assoc]

theorem finalWorkflowStatus_none_iff (l : List BuildSummaryOutput)
    (input : BuildProjectInput) (wid : String) :
    finalWorkflowStatus (some l) input wid = none ↔
      ∀ s ∈ l, badSummary input wid s = false := by
  have hred : finalWorkflowStatus (some l) input wid =
      match l.find? (badSummary input wid) with
      | some s =>
        some (CCError.workflowFailed s.reponame
          (match s.workflow with
           | none => ""
           | some w => w.workflowName)
          (match s.workflow with
           | none => ""
           | some w => w.jobName)
          s.status)
      | none => none := rfl
  rw [hred]
  cases hf : l.find? (badSummary input wid) with
  | none =>
    constructor
    · intro _ s hs
      have := List.find?_eq_none.mp hf s hs
      simpa using this
    · intro _
      rfl
  | some s =>
    constructor
    · intro h
      exact Option.noConfusion h
    · intro hall
      have hbad := List.find?_some hf
      have hmem := List.mem_of_find?_eq_some hf
      rw [hall s hmem] at hbad
      exact Bool.noConfusion hbad

/-- C8: when the tracked build finishes with its failure flag true, the
tracker returns nil and performs no next-build lookup if continue-on-fail
is set, and otherwise returns the BuildFailed error naming the project and
the build number. -/
theorem waitLoop_failed_flag (env : WaitEnv) (project : Project)
    (input : BuildProjectInput) (k : Nat) (buildNum : Int) (fuel : Nat)
    (build : Build)
    (hwb : env.waitForBuild k buildNum = Except.ok build)
    (_hlc : build.lifecycle = "finished")
    (hfail : build.failed = some true) :
    (waitLoop env project input true k buildNum (fuel + 1) = some none ∧
     waitLoopNextCalls env project input true k buildNum (fuel + 1) = 0) ∧
    waitLoop env project input false k buildNum (fuel + 1) =
      some (some (CCError.buildFailed project.reponame buildNum)) := by
  refine ⟨⟨?_, ?_⟩, ?_⟩
  · simp [waitLoop, hwb, hfail]
  · simp [waitLoopNextCalls, hwb, hfail]
  · simp [waitLoop, hwb, hfail]

/-- C1: when the next-build wait fails, a timeout error makes the tracker
return exactly the outcome of `finalWorkflowStatus` over the freshly
listed summaries — nil precisely when no listed summary matching the
selector and workflow id has a status other than "success" — while any
other error is propagated unchanged. -/
theorem waitLoop_timeout_final_status (env : WaitEnv) (project : Project)
    (input : BuildProjectInput) (continueOnFail : Bool) (k : Nat)
    (buildNum : Int) (fuel : Nat) (build : Build) (wf : BuildWorkflow)
    (e : CCError)
    (hwb : env.waitForBuild k buildNum = Except.ok build)
    (hfail : build.failed = some false)
    (hwf : build.workflow = some wf)
    (hnb : env.nextBuild k wf.workflowID = Except.error e) :
    (e = CCError.timeoutExceeded →
      waitLoop env project input continueOnFail k buildNum (fuel + 1) =
        some (finalWorkflowStatus env.finalList input wf.workflowID) ∧
      ∀ l, env.finalList = some l →
        (waitLoop env project input continueOnFail k buildNum (fuel + 1) =
            some none ↔
          ∀ s ∈ l, ¬(matchSummary input s = true ∧
            (∃ w, s.workflow = some w ∧ w.workflowID = wf.workflowID) ∧
            s.status ≠ "success"))) ∧
    (e ≠ CCError.timeoutExceeded →
      waitLoop env project input continueOnFail k buildNum (fuel + 1) =
        some (some e)) := by
  constructor
  · intro hte
    subst hte
    have hfin : waitLoop env project input continueOnFail k buildNum
        (fuel + 1) =
        some (finalWorkflowStatus env.finalList input wf.workflowID) := by
      simp [waitLoop, hwb, hfail, hwf, hnb, isTimeoutExceeded]
    refine ⟨hfin, fun l hl => ?_⟩
    rw [hfin, hl, Option.some_inj, finalWorkflowStatus_none_iff]
    constructor
    · intro hall s hs hbadprop
      have hbad := (badSummary_eq_true_iff input wf.workflowID s).mpr hbadprop
      rw [hall s hs] at hbad
      exact Bool.noConfusion hbad
    · intro hall s hs
      have := hall s hs
      rw [← badSummary_eq_true_iff input wf.workflowID s] at this
      simpa using this
  · intro hne
    have hit : isTimeoutExceeded e = false := by
      cases e
      case timeoutExceeded => exact absurd rfl hne
      all_goals rfl
    simp [waitLoop, hwb, hfail, hwf, hnb, hit]

/-- Test fixture: a finished, non-failed build in workflow `W`. -/
def finishedBuild : Build :=
  { buildNum := 1, username := "u", lifecycle := "finished",
    reponame := "repo", outcome := "success", status := "success",
    branch := "master", revision := "r", vcs := "github",
    failed := some false, user := none, queuedAt := none, stoppedAt := none,
    workflow := some wfW }

/-- Test fixture: the same build with the failure flag set. -/
def failedBuild : Build := { finishedBuild with failed := some true }

/-- Test fixture: a project record. -/
def projR : Project := ⟨"user", "repo", "github", "https://github.com/user/repo"⟩

/-- Test fixture: an environment whose next-build wait times out and whose
final listing holds one successful summary of workflow `W`. -/
def envTimeout : WaitEnv :=
  { waitForBuild := fun _ _ => Except.ok finishedBuild
    nextBuild := fun _ _ => Except.error CCError.timeoutExceeded
    finalList := some [sampleSummary "success" (some wfW)] }

/-- Test fixture: an environment whose tracked build finished failed. -/
def envFailed : WaitEnv :=
  { waitForBuild := fun _ _ => Except.ok failedBuild
    nextBuild := fun _ _ => Except.error (CCError.other "unreached")
    finalList := none }

/-- C1 witness: a timed-out next-build wait over an all-success final
listing terminates the tracker with nil. -/
theorem waitLoop_timeout_final_status_witness :
    waitLoop envTimeout projR ⟨"", "", ""⟩ false 0 1 1 = some none :=
  (((waitLoop_timeout_final_status envTimeout projR ⟨"", "", ""⟩ false 0 1 0
      finishedBuild wfW CCError.timeoutExceeded rfl rfl rfl rfl).1
      rfl).2 [sampleSummary "success" (some wfW)] rfl).mpr
    (by
      intro s hs
      rw [List.mem_singleton] at hs
      subst hs
      rintro ⟨-, -, hne⟩
      exact hne rfl)

/-- C8 witness: a failed build under continue-on-fail returns nil with no
next-build lookup. -/
theorem waitLoop_failed_flag_witness :
    waitLoop envFailed projR ⟨"", "", ""⟩ true 0 1 1 = some none ∧
    waitLoopNextCalls envFailed projR ⟨"", "", ""⟩ true 0 1 1 = 0 :=
  (waitLoop_failed_flag envFailed projR ⟨"", "", ""⟩ 0 1 0 failedBuild
    rfl rfl rfl).1

end GraceCircleci
